import Mathlib

/-!
Verification of the core of `mopidy_youtube/youtube.py`: a lazily-populated,
future-backed metadata cache for videos and playlists.

The Python code is shallowly embedded:
* a `pykka.ThreadingFuture` attached to an entity field is a `FieldState`
  (`noFuture` = the attribute does not exist yet, `unsetF` = future created
  but not set, `setF v` = future resolved to `v`, where `v : Option Value`
  and `none` is Python's `None`, the absent marker);
* a raw API item (a nested Python dict) is an `Item` whose `Option` fields
  model possibly-missing dictionary keys; reading a missing key raises
  `KeyError`, modelled by `Except Unit`;
* `Entry._set_api_data` becomes `setApiData`, which returns the mutated
  entity state together with a flag recording whether it completed without
  raising (Python mutations performed before an exception are kept);
* the batching in `Video.load_info`, the paginated loop of
  `Playlist.videos`, the `lru_cache`-backed `Entry.get` and the
  `ThreadPool` class are each embedded below next to their theorems.
-/

/-- The metadata fields handled by `Entry._set_api_data`. -/
inductive FieldName
  | title
  | channel
  | length
  | video_count
  | thumbnails
deriving DecidableEq, Repr

/-- A value stored in a resolved field future. -/
inductive Value
  | vstr (s : String)
  | vnat (n : Nat)
  | vurls (l : List String)
deriving DecidableEq, Repr

/-- State of the per-field future attribute `self.__dict__['_' + k]`:
absent attribute, unset future, or future set to an `Option Value`
(`none` being Python's `None`, the absent marker). -/
inductive FieldState
  | noFuture
  | unsetF
  | setF (v : Option Value)
deriving DecidableEq, Repr

/-- The mutable per-entity state: its id and one future slot per field. -/
structure EntryState where
  id : String
  title : FieldState := FieldState.noFuture
  channel : FieldState := FieldState.noFuture
  length : FieldState := FieldState.noFuture
  video_count : FieldState := FieldState.noFuture
  thumbnails : FieldState := FieldState.noFuture
deriving DecidableEq, Repr

def getField (e : EntryState) : FieldName → FieldState
  | FieldName.title => e.title
  | FieldName.channel => e.channel
  | FieldName.length => e.length
  | FieldName.video_count => e.video_count
  | FieldName.thumbnails => e.thumbnails

def setField (e : EntryState) : FieldName → FieldState → EntryState
  | FieldName.title, fs => { e with title := fs }
  | FieldName.channel, fs => { e with channel := fs }
  | FieldName.length, fs => { e with length := fs }
  | FieldName.video_count, fs => { e with video_count := fs }
  | FieldName.thumbnails, fs => { e with thumbnails := fs }

/-- Model of `item['snippet']`: each `Option` is a possibly-missing dict key. -/
structure Snippet where
  title : Option String := none
  channelTitle : Option String := none
  -- `item['snippet']['thumbnails']` is a dict from size key to a dict with a
  -- 'url' entry; modelled as an assoc list (key, url) in iteration order.
  thumbnails : Option (List (String × String)) := none
deriving DecidableEq, Repr

/-- Model of `item['contentDetails']`. -/
structure ContentDetails where
  duration : Option String := none
  itemCount : Option Nat := none
deriving DecidableEq, Repr

/-- A raw item from `data['items']` of a batch API response. -/
structure Item where
  id : String
  snippet : Option Snippet := none
  contentDetails : Option ContentDetails := none
deriving DecidableEq, Repr

/-! ### The duration regex

`re.search('PT((?P<hours>\d+)H)?((?P<minutes>\d+)M)?((?P<seconds>\d+)S)?', d)`
finds the leftmost occurrence of the literal `PT` (all groups are optional,
so the regex matches exactly at the first `PT`) and then greedily tries, in
order, digits followed by `H`, digits followed by `M`, digits followed by
`S`, each group independently optional (failing groups consume nothing).
If the string contains no `PT` at all, `re.search` returns `None` and the
subsequent `m.group(...)` raises, modelled by `parseDuration` returning
`none`. -/

def digitVal (c : Char) : Nat := c.toNat - 48

/-- Longest prefix of decimal digits, as matched by a greedy `\d+`. -/
def takeDigits : List Char → List Char × List Char
  | [] => ([], [])
  | c :: cs =>
    if c.isDigit then
      let p := takeDigits cs
      (c :: p.1, p.2)
    else ([], c :: cs)

/-- The number denoted by a list of decimal digit characters. -/
def digitsToNat (ds : List Char) : Nat :=
  ds.foldl (fun a c => 10 * a + digitVal c) 0

/-- One optional regex group `((\d+)X)?`: digits followed by the marker
character, or a failed match consuming nothing. -/
def parseComp (marker : Char) (cs : List Char) : Option Nat × List Char :=
  match takeDigits cs with
  | ([], _) => (none, cs)
  | (ds, m :: rest) => if m = marker then (some (digitsToNat ds), rest) else (none, cs)
  | (_, []) => (none, cs)

/-- The value computed from the three groups after the literal `PT`:
`int(hours or 0) * 3600 + int(minutes or 0) * 60 + int(seconds or 0)`. -/
def parsePTBody (cs : List Char) : Nat :=
  let h := parseComp 'H' cs
  let m := parseComp 'M' h.2
  let s := parseComp 'S' m.2
  (h.1.getD 0) * 3600 + (m.1.getD 0) * 60 + (s.1.getD 0)

/-- Leftmost occurrence of the literal `PT`; returns the suffix after it. -/
def findPT : List Char → Option (List Char)
  | [] => none
  | c :: cs =>
    if c = 'P' then
      match cs with
      | [] => none
      | c2 :: cs2 => if c2 = 'T' then some cs2 else findPT cs
    else findPT cs

/-- Returns `none` when `re.search` finds no match (so `m.group` would raise). -/
def parseDuration (s : String) : Option Nat :=
  (findPT s.toList).map parsePTBody

/-- The value `_set_api_data` computes for field `k` from a present raw
`item`; `Except.error ()` is a raised `KeyError`/`AttributeError`. -/
def fieldValue (maxVideos : Nat) (k : FieldName) (it : Item) : Except Unit (Option Value) :=
  match k with
  | FieldName.title =>
    match it.snippet with
    | none => Except.error ()
    | some sn =>
      match sn.title with
      | none => Except.error ()
      | some t => Except.ok (some (Value.vstr t))
  | FieldName.channel =>
    match it.snippet with
    | none => Except.error ()
    | some sn =>
      match sn.channelTitle with
      | none => Except.error ()
      | some c => Except.ok (some (Value.vstr c))
  | FieldName.length =>
    match it.contentDetails with
    | none => Except.error ()
    | some cd =>
      match cd.duration with
      | none => Except.error ()
      | some d =>
        match parseDuration d with
        | none => Except.error ()
        | some n => Except.ok (some (Value.vnat n))
  | FieldName.video_count =>
    match it.contentDetails with
    | none => Except.error ()
    | some cd =>
      match cd.itemCount with
      | none => Except.error ()
      | some n => Except.ok (some (Value.vnat (min n maxVideos)))
  | FieldName.thumbnails =>
    match it.snippet with
    | none => Except.error ()
    | some sn =>
      match sn.thumbnails with
      | none => Except.error ()
      | some th =>
        Except.ok (some (Value.vurls
          ((th.filter (fun p => p.1 == "medium" || p.1 == "high")).map (fun p => p.2))))

/-- One iteration of the `for k in fields` loop of `_set_api_data`:
the future is created if absent, skipped if already set (`not
future._queue.empty()`), otherwise the value is computed (`false` flags a
raised exception, which leaves the just-created future unset) and the
future is set (`none` when `item` is `None`). -/
def setApiData1 (item : Option Item) (maxVideos : Nat) (e : EntryState) (k : FieldName) :
    EntryState × Bool :=
  match getField e k with
  | FieldState.setF _ => (e, true)
  | _ =>
    match item with
    | none => (setField e k (FieldState.setF none), true)
    | some it =>
      match fieldValue maxVideos k it with
      | Except.error _ => (setField e k FieldState.unsetF, false)
      | Except.ok v => (setField e k (FieldState.setF v), true)

/-- The body of `Entry._set_api_data(fields, item)`: iterates over `fields`; an
exception aborts the loop but keeps the mutations already performed. -/
def setApiData (fields : List FieldName) (item : Option Item) (maxVideos : Nat)
    (e : EntryState) : EntryState × Bool :=
  match fields with
  | [] => (e, true)
  | k :: ks =>
    let p := setApiData1 item maxVideos e k
    if p.2 then setApiData ks item maxVideos p.1 else (p.1, false)

/-! ### The batch job of `Video.load_info` / `Playlist.load_info`

A job receives a contiguous sublist, performs one batch call, builds
`dict = {item['id']: item for item in data['items']}` (an empty dict when
the call raised), and runs `_set_api_data(fields, dict.get(x.id))` on each
entity in order. An exception escaping `_set_api_data` aborts the loop —
it is caught only by `ThreadPool.worker`, so later entities of the sublist
keep their states. -/

/-- The lookup `dict.get(id)` over `data['items']` keyed by `item['id']`. -/
def itemsDict (items : List Item) (id : String) : Option Item :=
  (items.find? (fun it => it.id == id)).map (fun it => it)

/-- The per-entity loop at the end of a batch job. Returns the updated
sublist and `false` when `_set_api_data` raised (aborting the loop). -/
def processBatch (dict : String → Option Item) (fields : List FieldName)
    (maxVideos : Nat) : List EntryState → List EntryState × Bool
  | [] => ([], true)
  | v :: rest =>
    let p := setApiData fields (dict v.id) maxVideos v
    if p.2 then
      let q := processBatch dict fields maxVideos rest
      (p.1 :: q.1, q.2)
    else (p.1 :: rest, false)

/-- A whole batch job: `lookup` is `API.list_videos`/`list_playlists`
(raising = `Except.error`), then the entity loop. -/
def batchJob (lookup : List String → Except Unit (List Item))
    (fields : List FieldName) (maxVideos : Nat) (sublist : List EntryState) :
    List EntryState × Bool :=
  match lookup (sublist.map (fun x => x.id)) with
  | Except.error _ => processBatch (fun _ => none) fields maxVideos sublist
  | Except.ok items => processBatch (itemsDict items) fields maxVideos sublist

/-! ### `Entry._add_futures` and the batch split of `load_info` -/

/-- The `add` closure of `_add_futures` applied to one object: creates an
unset future for every field not yet present, and reports whether at
least one was added. -/
def addFutures1 (fields : List FieldName) (e : EntryState) : EntryState × Bool :=
  fields.foldl
    (fun p k =>
      match getField p.1 k with
      | FieldState.noFuture => (setField p.1 k FieldState.unsetF, true)
      | _ => p)
    (e, false)

/-- The result of `_add_futures(list, fields)` = `filter(add, list)` (Python 2 `filter`
returns a list, evaluated eagerly in order). -/
def addFutures (fields : List FieldName) (l : List EntryState) : List EntryState :=
  ((l.map (addFutures1 fields)).filter (fun p => p.2)).map (fun p => p.1)

/-- The slice loop `for i in range(0, len(list), 50): sublist = list[i:i+50]`:
contiguous chunks of at most 50, in order. The fuel argument is bounded by
the list length, so it never runs out. -/
def chunksAux : Nat → List α → List (List α)
  | _, [] => []
  | 0, l => [l]
  | fuel + 1, l => l.take 50 :: chunksAux fuel (l.drop 50)

def chunks50 (l : List α) : List (List α) := chunksAux l.length l

/-- The fields requested by `Video.load_info`. -/
def videoFields : List FieldName := [FieldName.title, FieldName.length, FieldName.channel]

/-- The fields requested by `Playlist.load_info`. -/
def playlistFields : List FieldName :=
  [FieldName.title, FieldName.video_count, FieldName.thumbnails, FieldName.channel]

/-- The batches of `load_info`: filter/extend via `_add_futures`, then one pool job per
50-element slice. The returned list of sublists has exactly one entry per
submitted `ThreadPool.run(job, (sublist,))` call. -/
def loadInfoBatches (fields : List FieldName) (l : List EntryState) :
    List (List EntryState) :=
  chunks50 (addFutures fields l)

/-! ### The paginated loop of `Playlist.videos` -/

/-- One page returned by `list_playlistitems`: the optional
`nextPageToken` and the `items`, reduced to the video ids
(`item['snippet']['resourceId']['videoId']`) that the loop turns into
`Video.get(...)` entities and appends to `all_videos`. -/
structure PageData where
  nextPageToken : Option String
  items : List String
deriving DecidableEq, Repr

/-- The `while page is not None and len(all_videos) < self.max_videos`
loop. `fetch tok n` models `list_playlistitems(self.id, tok, n)`, with
`Except.error` a raised exception (caught by the bare `except: break`).
`page = data.get('nextPageToken') or None` turns an empty-string token
into `None`. The accumulated list is the one passed to
`self._videos.set(all_videos)`; entities are represented by their video
ids. Fuel bounds the number of iterations (the theorems supply enough). -/
def videosLoop (fetch : String → Nat → Except Unit PageData) (maxVideos : Nat) :
    Nat → Option String → List String → List String
  | 0, _, acc => acc
  | _ + 1, none, acc => acc
  | fuel + 1, some tok, acc =>
    if acc.length < maxVideos then
      match fetch tok (min (maxVideos - acc.length) 50) with
      | Except.error _ => acc
      | Except.ok data =>
        let page :=
          match data.nextPageToken with
          | none => none
          | some t => if t = "" then none else some t
        videosLoop fetch maxVideos fuel page (acc ++ data.items)
    else acc

/-- The whole `videos` job: loop from `page = ''`, then the value given to
`self._videos.set`. -/
def videosJob (fetch : String → Nat → Except Unit PageData) (maxVideos fuel : Nat) :
    List String :=
  videosLoop fetch maxVideos fuel (some "") []

/-! ### `Entry.get` and its `lru_cache`

`Entry.get` is a classmethod memoized by `repoze.lru.lru_cache(maxsize=400)`;
the cache key includes the class, so `Video.get(id)` and `Playlist.get(id)`
are distinct entries of one 400-entry cache. A hit returns the cached
object itself; a miss constructs a fresh object (represented by a unique
creation token), inserts it and, at capacity, evicts one old entry. -/

inductive ClsTag
  | video
  | playlist
deriving DecidableEq, Repr

def cache_max_len : Nat := 400

structure CacheState where
  entries : List ((ClsTag × String) × Nat)
  nextTok : Nat
deriving DecidableEq, Repr

def cacheLookup (c : CacheState) (key : ClsTag × String) : Option Nat :=
  (c.entries.find? (fun p => p.1 == key)).map (fun p => p.2)

/-- The call `cls.get(id)` through the lru cache: hit returns the resident
instance unchanged; miss creates `obj = cls(); obj.id = id`, evicting the
oldest entry when the cache is full. -/
def entryGet (cls : ClsTag) (id : String) (c : CacheState) : Nat × CacheState :=
  match cacheLookup c (cls, id) with
  | some tok => (tok, c)
  | none =>
    let tok := c.nextTok
    let inserted :=
      if cache_max_len ≤ c.entries.length then
        c.entries.drop 1 ++ [((cls, id), tok)]
      else c.entries ++ [((cls, id), tok)]
    (tok, { entries := inserted, nextTok := tok + 1 })

/-! ### `ThreadPool`

State: the `jobs` list, the `threads_active` counter (an `Int`, as the
Python integer it models can in principle go negative), and the number of
live worker threads. All three are touched only under `cls.lock`, so the
system is an interleaving of three atomic transitions:
`run` (append job, maybe start a worker), a worker popping a job
(`cls.jobs.pop()` pops the LAST element), and a worker finding the queue
empty, decrementing `threads_active` once and exiting. -/

def threads_max : Int := 2

structure PoolState where
  jobs : List Nat
  threads_active : Int
  liveWorkers : Nat
deriving DecidableEq, Repr

/-- The body of `ThreadPool.run(f, args)`: append the job; if `threads_active <
threads_max`, start one new worker thread and increment the counter. -/
def poolRun (j : Nat) (s : PoolState) : PoolState :=
  let s1 : PoolState := { s with jobs := s.jobs ++ [j] }
  if s1.threads_active < threads_max then
    { s1 with threads_active := s1.threads_active + 1, liveWorkers := s1.liveWorkers + 1 }
  else s1

/-- Atomic transitions of the pool (job bodies do not touch pool state). -/
inductive PoolStep : PoolState → PoolState → Prop
  | submit (j : Nat) (s : PoolState) : PoolStep s (poolRun j s)
  | workerPop (s : PoolState) (hw : 1 ≤ s.liveWorkers) (hne : s.jobs ≠ []) :
      PoolStep s { s with jobs := s.jobs.dropLast }
  | workerExit (s : PoolState) (hw : 1 ≤ s.liveWorkers) (he : s.jobs = []) :
      PoolStep s
        { s with threads_active := s.threads_active - 1, liveWorkers := s.liveWorkers - 1 }

/-- The worker-only transitions (no new submissions). -/
inductive WorkerStep : PoolState → PoolState → Prop
  | workerPop (s : PoolState) (hw : 1 ≤ s.liveWorkers) (hne : s.jobs ≠ []) :
      WorkerStep s { s with jobs := s.jobs.dropLast }
  | workerExit (s : PoolState) (hw : 1 ≤ s.liveWorkers) (he : s.jobs = []) :
      WorkerStep s
        { s with threads_active := s.threads_active - 1, liveWorkers := s.liveWorkers - 1 }

def initPool : PoolState := { jobs := [], threads_active := 0, liveWorkers := 0 }

def PoolReachable (s : PoolState) : Prop := Relation.ReflTransGen PoolStep initPool s

/-- The pool invariant: the counter agrees with the live workers, stays
within the cap, and a non-empty queue implies at least one live worker. -/
def PoolInv (s : PoolState) : Prop :=
  s.threads_active = (s.liveWorkers : Int) ∧ s.threads_active ≤ threads_max ∧
    (s.jobs ≠ [] → 1 ≤ s.liveWorkers)

/-! ### `Video.thumbnails` -/

/-- The `Video.thumbnails` property body: it creates the future and sets
it immediately from the video id; the second component is the list of pool
jobs it submits (none — no `ThreadPool.run`, no API call). -/
def videoThumbnails (id : String) : FieldState × List Nat :=
  (FieldState.setF (some (Value.vurls
    (["mqdefault", "hqdefault"].map
      (fun t => "https://i.ytimg.com/vi/" ++ id ++ "/" ++ t ++ ".jpg")))), [])

/-! ## Helper lemmas about field futures and `_set_api_data` -/

/-- The `not future._queue.empty()` check of `_set_api_data`. -/
def isSet : FieldState → Bool
  | FieldState.setF _ => true
  | _ => false

theorem getField_setField_same (e : EntryState) (k : FieldName) (fs : FieldState) :
    getField (setField e k fs) k = fs := by
  cases k <;> rfl

theorem getField_setField_ne (e : EntryState) (k k' : FieldName) (fs : FieldState)
    (h : k' ≠ k) : getField (setField e k fs) k' = getField e k' := by
  cases k <;> cases k' <;> first | rfl | exact absurd rfl h

theorem setApiData1_other (item : Option Item) (mv : Nat) (e : EntryState)
    (k' k : FieldName) (h : k ≠ k') :
    getField (setApiData1 item mv e k').1 k = getField e k := by
  unfold setApiData1
  cases hg : getField e k' with
  | setF v => exact rfl
  | noFuture =>
    cases item with
    | none => exact getField_setField_ne e k' k _ h
    | some it =>
      cases hfv : fieldValue mv k' it with
      | error u => simp only [hfv]; exact getField_setField_ne e k' k _ h
      | ok v => simp only [hfv]; exact getField_setField_ne e k' k _ h
  | unsetF =>
    cases item with
    | none => exact getField_setField_ne e k' k _ h
    | some it =>
      cases hfv : fieldValue mv k' it with
      | error u => simp only [hfv]; exact getField_setField_ne e k' k _ h
      | ok v => simp only [hfv]; exact getField_setField_ne e k' k _ h

theorem setApiData1_preserves (item : Option Item) (mv : Nat) (e : EntryState)
    (k' k : FieldName) (v : Option Value) (h : getField e k = FieldState.setF v) :
    getField (setApiData1 item mv e k').1 k = FieldState.setF v := by
  by_cases hk : k = k'
  · subst hk
    unfold setApiData1
    rw [h]
    exact h
  · rw [setApiData1_other item mv e k' k hk]
    exact h

/-- A field future already set keeps its value through any `_set_api_data`
call (the `isSet` guard skips it; exceptions cannot unset it). -/
theorem setApiData_preserves_set (fields : List FieldName) (item : Option Item)
    (mv : Nat) (e : EntryState) (k : FieldName) (v : Option Value)
    (h : getField e k = FieldState.setF v) :
    getField (setApiData fields item mv e).1 k = FieldState.setF v := by
  induction fields generalizing e with
  | nil => exact h
  | cons k0 ks ih =>
    unfold setApiData
    by_cases h2 : (setApiData1 item mv e k0).2
    · simp only [h2, if_true]
      exact ih _ (setApiData1_preserves item mv e k0 k v h)
    · simp only [h2, if_false]
      exact setApiData1_preserves item mv e k0 k v h

/-- With `item = None`, one `_set_api_data` iteration never raises. -/
theorem setApiData1_none_snd (mv : Nat) (e : EntryState) (k : FieldName) :
    (setApiData1 none mv e k).2 = true := by
  unfold setApiData1
  cases getField e k <;> rfl

/-- With `item = None`, `_set_api_data` completes without raising. -/
theorem setApiData_none_snd (fields : List FieldName) (mv : Nat) (e : EntryState) :
    (setApiData fields none mv e).2 = true := by
  induction fields generalizing e with
  | nil => rfl
  | cons k0 ks ih =>
    unfold setApiData
    simp only [setApiData1_none_snd, if_true]
    exact ih _

/-- With `item = None`, every requested field ends up set. -/
theorem setApiData_none_isSet (fields : List FieldName) (mv : Nat) (e : EntryState)
    (k : FieldName) (hk : k ∈ fields) :
    isSet (getField (setApiData fields none mv e).1 k) = true := by
  induction fields generalizing e with
  | nil => cases hk
  | cons k0 ks ih =>
    unfold setApiData
    simp only [setApiData1_none_snd, if_true]
    rcases List.mem_cons.mp hk with hk0 | hks
    · subst hk0
      have hset : ∃ v, getField (setApiData1 none mv e k).1 k = FieldState.setF v := by
        unfold setApiData1
        cases hg : getField e k with
        | setF v => exact ⟨v, hg⟩
        | noFuture => exact ⟨none, getField_setField_same e k _⟩
        | unsetF => exact ⟨none, getField_setField_same e k _⟩
      obtain ⟨v, hv⟩ := hset
      rw [setApiData_preserves_set ks none mv _ k v hv]
      rfl
    · exact ih _ hks

/-- With `item = None`, a requested field that was not yet set is set to
`None`, the absent marker. -/
theorem setApiData_none_absent (fields : List FieldName) (mv : Nat) (e : EntryState)
    (k : FieldName) (hk : k ∈ fields) (hunset : isSet (getField e k) = false) :
    getField (setApiData fields none mv e).1 k = FieldState.setF none := by
  induction fields generalizing e with
  | nil => cases hk
  | cons k0 ks ih =>
    unfold setApiData
    simp only [setApiData1_none_snd, if_true]
    by_cases hk0 : k = k0
    · subst hk0
      have hv : getField (setApiData1 none mv e k).1 k = FieldState.setF none := by
        unfold setApiData1
        cases hg : getField e k with
        | setF v => rw [hg] at hunset; cases hunset
        | noFuture => exact getField_setField_same e k _
        | unsetF => exact getField_setField_same e k _
      exact setApiData_preserves_set ks none mv _ k none hv
    · rcases List.mem_cons.mp hk with h | hks
      · exact absurd h hk0
      · have hother := setApiData1_other none mv e k0 k hk0
        apply ih
        · exact hks
        · rw [hother]; exact hunset

/-- When `_set_api_data` raises on no entity, the batch loop processes the
whole sublist in order. -/
theorem processBatch_all_ok (dict : String → Option Item) (fields : List FieldName)
    (mv : Nat) (sublist : List EntryState)
    (h : ∀ e ∈ sublist, (setApiData fields (dict e.id) mv e).2 = true) :
    processBatch dict fields mv sublist
      = (sublist.map (fun e => (setApiData fields (dict e.id) mv e).1), true) := by
  induction sublist with
  | nil => rfl
  | cons v rest ih =>
    unfold processBatch
    simp only [h v (List.mem_cons_self v rest), if_true]
    rw [ih (fun e he => h e (List.mem_cons_of_mem v he))]
    rfl

/-! ## C4 -/

/-- C4: a field future that is already set is left unchanged by any later
`_set_api_data` call (the `isSet()` check skips the write), so a future
never goes from set back to unset and reads before and after return the
identical value. -/
theorem claim4_no_overwrite (fields : List FieldName) (item : Option Item)
    (mv : Nat) (e : EntryState) (k : FieldName) (v : Option Value)
    (h : getField e k = FieldState.setF v) :
    getField (setApiData fields item mv e).1 k = FieldState.setF v :=
  setApiData_preserves_set fields item mv e k v h

/-- Witness for C4 at a concrete entity whose `title` is already set. -/
theorem claim4_no_overwrite_witness :
    getField
      (setApiData videoFields
        (some { id := "a", snippet := some { title := some "other" } }) 60
        { id := "a", title := FieldState.setF (some (Value.vstr "keep")) }).1
      FieldName.title = FieldState.setF (some (Value.vstr "keep")) :=
  claim4_no_overwrite videoFields
    (some { id := "a", snippet := some { title := some "other" } }) 60
    { id := "a", title := FieldState.setF (some (Value.vstr "keep")) }
    FieldName.title (some (Value.vstr "keep")) rfl

/-! ## C1 -/

/-- C1 counterexample: in a failing batch, an entity whose `title` future
was already set (e.g. during pagination) keeps its old value; the claim
that every requested field future is set to the absent marker `None` is
false for it. -/
theorem claim1_counterexample :
    (batchJob (fun _ => Except.error ()) videoFields 60
        [{ id := "a", title := FieldState.setF (some (Value.vstr "t")),
           length := FieldState.unsetF, channel := FieldState.unsetF }]).1.map
        (fun e => getField e FieldName.title)
      = [FieldState.setF (some (Value.vstr "t"))]
    ∧ FieldState.setF (some (Value.vstr "t")) ≠ (FieldState.setF none : FieldState) := by
  constructor
  · rfl
  · decide

/-- C1 (amended): when the batch lookup raises, the job completes without
raising, every entity of the sublist is processed, every requested field
future ends up set, and every requested field future that was not already
set is set to the absent marker `None` (already-set futures keep their
value). -/
theorem claim1_batch_failure_resolves_all (fields : List FieldName) (mv : Nat)
    (sublist : List EntryState) :
    (batchJob (fun _ => Except.error ()) fields mv sublist).2 = true
    ∧ (batchJob (fun _ => Except.error ()) fields mv sublist).1
        = sublist.map (fun e => (setApiData fields none mv e).1)
    ∧ (∀ (e : EntryState) (k : FieldName), k ∈ fields →
        isSet (getField (setApiData fields none mv e).1 k) = true
        ∧ (isSet (getField e k) = false →
            getField (setApiData fields none mv e).1 k = FieldState.setF none)) := by
  have hall : ∀ e ∈ sublist, (setApiData fields ((fun _ => (none : Option Item)) e.id) mv e).2 = true :=
    fun e _ => setApiData_none_snd fields mv e
  have hpb := processBatch_all_ok (fun _ => none) fields mv sublist hall
  refine ⟨?_, ?_, ?_⟩
  · unfold batchJob
    rw [hpb]
  · unfold batchJob
    rw [hpb]
  · intro e k hk
    exact ⟨setApiData_none_isSet fields mv e k hk,
      fun hunset => setApiData_none_absent fields mv e k hk hunset⟩

/-- Witness for C1 on a concrete two-entity batch with unset futures. -/
theorem claim1_batch_failure_witness :
    (batchJob (fun _ => Except.error ()) videoFields 60
        [{ id := "a", title := FieldState.unsetF, length := FieldState.unsetF,
           channel := FieldState.unsetF },
         { id := "b", title := FieldState.unsetF, length := FieldState.unsetF,
           channel := FieldState.unsetF }]).2 = true
    ∧ FieldName.length ∈ videoFields
    ∧ isSet (getField (setApiData videoFields none 60
        { id := "a", title := FieldState.unsetF, length := FieldState.unsetF,
          channel := FieldState.unsetF }).1 FieldName.length) = true := by
  refine ⟨(claim1_batch_failure_resolves_all videoFields 60 _).1, by decide, ?_⟩
  exact ((claim1_batch_failure_resolves_all videoFields 60
    [{ id := "a", title := FieldState.unsetF, length := FieldState.unsetF,
       channel := FieldState.unsetF },
     { id := "b", title := FieldState.unsetF, length := FieldState.unsetF,
       channel := FieldState.unsetF }]).2.2
    { id := "a", title := FieldState.unsetF, length := FieldState.unsetF,
      channel := FieldState.unsetF } FieldName.length (by decide)).1

/-! ## C2 -/

/-- C2: the code contradicts the claim. For a batch whose returned item is
present but lacks `contentDetails`, `_set_api_data` raises `KeyError` at
the `length` field: the exception aborts the loop (flag `false`, caught
only in `ThreadPool.worker`), so `length` is NOT set to the absent marker,
the later `channel` field of the same entity is NOT resolved, and the
second entity of the batch is not processed at all — its futures stay
unset forever. -/
theorem claim2_missing_subfield_aborts_batch :
    batchJob
        (fun _ => Except.ok
          [{ id := "a", snippet := some { title := some "t", channelTitle := some "c" },
             contentDetails := none },
           { id := "b", snippet := some { title := some "u", channelTitle := some "d" },
             contentDetails := none }])
        videoFields 60
        [{ id := "a", title := FieldState.unsetF, length := FieldState.unsetF,
           channel := FieldState.unsetF },
         { id := "b", title := FieldState.unsetF, length := FieldState.unsetF,
           channel := FieldState.unsetF }]
      = ([{ id := "a", title := FieldState.setF (some (Value.vstr "t")),
            length := FieldState.unsetF, channel := FieldState.unsetF },
          { id := "b", title := FieldState.unsetF, length := FieldState.unsetF,
            channel := FieldState.unsetF }], false) := by
  rfl

/-! ## C5 -/

/-- Holds when the regex group cannot extend into `rest`. -/
def noDigitHead : List Char → Prop
  | [] => True
  | c :: _ => c.isDigit = false

theorem takeDigits_append (ds rest : List Char) (h : ∀ c ∈ ds, c.isDigit = true)
    (hr : noDigitHead rest) : takeDigits (ds ++ rest) = (ds, rest) := by
  induction ds with
  | nil =>
    cases rest with
    | nil => rfl
    | cons c cs =>
      unfold takeDigits
      unfold noDigitHead at hr
      simp only [List.nil_append, hr, Bool.false_eq_true, if_false]
  | cons c cs ih =>
    unfold takeDigits
    simp only [List.cons_append, h c (List.mem_cons_self c cs), if_true]
    rw [ih (fun x hx => h x (List.mem_cons_of_mem c hx))]

theorem parseComp_hit (marker : Char) (ds rest : List Char) (hne : ds ≠ [])
    (h : ∀ c ∈ ds, c.isDigit = true) (hm : marker.isDigit = false) :
    parseComp marker (ds ++ marker :: rest) = (some (digitsToNat ds), rest) := by
  obtain ⟨d, ds', rfl⟩ := List.exists_cons_of_ne_nil hne
  unfold parseComp
  rw [takeDigits_append (d :: ds') (marker :: rest) h hm]
  simp

theorem parseComp_wrong_marker (marker m2 : Char) (ds rest : List Char)
    (h : ∀ c ∈ ds, c.isDigit = true) (hm2 : m2.isDigit = false) (hne : m2 ≠ marker) :
    parseComp marker (ds ++ m2 :: rest) = (none, ds ++ m2 :: rest) := by
  unfold parseComp
  rw [takeDigits_append ds (m2 :: rest) h hm2]
  cases ds with
  | nil => simp
  | cons d ds' => simp [hne]

theorem parseComp_nil (marker : Char) : parseComp marker [] = (none, []) := rfl

/-- The decimal digit characters of `n` (at least one digit, as Python's
`str` of a nonnegative int). -/
def natDigits (n : Nat) : List Char :=
  if n = 0 then ['0'] else (Nat.digits 10 n).reverse.map (fun d => Char.ofNat (48 + d))

/-- One optional `#X` component of a `PT#H#M#S` string. -/
def optComp (marker : Char) : Option Nat → List Char
  | none => []
  | some n => natDigits n ++ [marker]

/-- A duration string of the form `PT#H#M#S` with any subset of the
components present. -/
def mkDurStr (oh om os : Option Nat) : String :=
  ⟨'P' :: 'T' :: (optComp 'H' oh ++ (optComp 'M' om ++ optComp 'S' os))⟩

theorem digit_char_isDigit (d : Nat) (hd : d < 10) :
    (Char.ofNat (48 + d)).isDigit = true := by
  interval_cases d <;> decide

theorem digitVal_digit_char (d : Nat) (hd : d < 10) :
    digitVal (Char.ofNat (48 + d)) = d := by
  interval_cases d <;> decide

theorem natDigits_all (n : Nat) : ∀ c ∈ natDigits n, c.isDigit = true := by
  intro c hc
  unfold natDigits at hc
  by_cases h0 : n = 0
  · simp only [h0, if_true, List.mem_singleton] at hc
    subst hc
    decide
  · simp only [h0, if_false, List.mem_map, List.mem_reverse] at hc
    obtain ⟨d, hd, rfl⟩ := hc
    exact digit_char_isDigit d (Nat.digits_lt_base (by norm_num) hd)

theorem natDigits_ne_nil (n : Nat) : natDigits n ≠ [] := by
  unfold natDigits
  by_cases h0 : n = 0
  · simp [h0]
  · simp only [h0, if_false]
    intro hmap
    rw [List.map_eq_nil_iff, List.reverse_eq_nil_iff] at hmap
    exact h0 ((Nat.digits_eq_nil_iff_eq_zero).mp hmap)

theorem digitsToNat_rev_map (l : List Nat) (h : ∀ d ∈ l, d < 10) :
    digitsToNat (l.reverse.map (fun d => Char.ofNat (48 + d))) = Nat.ofDigits 10 l := by
  induction l with
  | nil => rfl
  | cons a l ih =>
    rw [List.reverse_cons, List.map_append]
    unfold digitsToNat
    rw [List.foldl_append]
    have hfold := ih (fun d hd => h d (List.mem_cons_of_mem a hd))
    unfold digitsToNat at hfold
    rw [hfold]
    simp only [List.map_cons, List.map_nil, List.foldl_cons, List.foldl_nil]
    rw [digitVal_digit_char a (h a (List.mem_cons_self a l))]
    rw [Nat.ofDigits_cons]
    ring

theorem digitsToNat_natDigits (n : Nat) : digitsToNat (natDigits n) = n := by
  unfold natDigits
  by_cases h0 : n = 0
  · simp [h0]; rfl
  · simp only [h0, if_false]
    rw [digitsToNat_rev_map (Nat.digits 10 n) (fun d hd => Nat.digits_lt_base (by norm_num) hd)]
    exact Nat.ofDigits_digits 10 n

/-- Applying `parseComp` to a present component consumes exactly that component. -/
theorem parseComp_optComp_some (marker : Char) (n : Nat) (rest : List Char)
    (hm : marker.isDigit = false) :
    parseComp marker (optComp marker (some n) ++ rest) = (some n, rest) := by
  unfold optComp
  rw [List.append_assoc]
  have := parseComp_hit marker (natDigits n) rest (natDigits_ne_nil n) (natDigits_all n) hm
  simpa [digitsToNat_natDigits n] using this

/-- The group `parseComp 'H'` fails without consuming on the `#M#S` remainder. -/
theorem parseComp_H_on_MS (om os : Option Nat) :
    parseComp 'H' (optComp 'M' om ++ optComp 'S' os)
      = (none, optComp 'M' om ++ optComp 'S' os) := by
  cases om with
  | some m =>
    unfold optComp
    rw [List.append_assoc]
    have := parseComp_wrong_marker 'H' 'M' (natDigits m) (optComp 'S' os)
      (natDigits_all m) (by decide) (by decide)
    simpa using this
  | none =>
    cases os with
    | some s =>
      unfold optComp
      simp only [List.nil_append]
      exact parseComp_wrong_marker 'H' 'S' (natDigits s) [] (natDigits_all s)
        (by decide) (by decide)
    | none => rfl

/-- The group `parseComp 'M'` fails without consuming on the `#S` remainder. -/
theorem parseComp_M_on_S (os : Option Nat) :
    parseComp 'M' (optComp 'S' os) = (none, optComp 'S' os) := by
  cases os with
  | some s =>
    unfold optComp
    exact parseComp_wrong_marker 'M' 'S' (natDigits s) [] (natDigits_all s)
      (by decide) (by decide)
  | none => rfl

theorem parsePTBody_mk (oh om os : Option Nat) :
    parsePTBody (optComp 'H' oh ++ (optComp 'M' om ++ optComp 'S' os))
      = oh.getD 0 * 3600 + (om.getD 0 * 60 + os.getD 0 * 1) := by
  have hH : parseComp 'H' (optComp 'H' oh ++ (optComp 'M' om ++ optComp 'S' os))
      = (oh, optComp 'M' om ++ optComp 'S' os) := by
    cases oh with
    | some h => exact parseComp_optComp_some 'H' h _ (by decide)
    | none =>
      simp only [optComp, List.nil_append]
      exact parseComp_H_on_MS om os
  have hM : parseComp 'M' (optComp 'M' om ++ optComp 'S' os)
      = (om, optComp 'S' os) := by
    cases om with
    | some m => exact parseComp_optComp_some 'M' m _ (by decide)
    | none =>
      simp only [optComp, List.nil_append]
      exact parseComp_M_on_S os
  have hS : parseComp 'S' (optComp 'S' os) = (os, []) := by
    cases os with
    | some s =>
      have := parseComp_optComp_some 'S' s [] (by decide)
      simpa using this
    | none => rfl
  simp only [parsePTBody, hH, hM, hS]
  ring

theorem parseDuration_mkDurStr (oh om os : Option Nat) :
    parseDuration (mkDurStr oh om os)
      = some (oh.getD 0 * 3600 + (om.getD 0 * 60 + os.getD 0 * 1)) := by
  unfold parseDuration mkDurStr
  rw [show (String.toList ⟨'P' :: 'T' :: (optComp 'H' oh ++ (optComp 'M' om ++ optComp 'S' os))⟩)
      = 'P' :: 'T' :: (optComp 'H' oh ++ (optComp 'M' om ++ optComp 'S' os)) from rfl]
  rw [show findPT ('P' :: 'T' :: (optComp 'H' oh ++ (optComp 'M' om ++ optComp 'S' os)))
      = some (optComp 'H' oh ++ (optComp 'M' om ++ optComp 'S' os)) from rfl]
  rw [show Option.map parsePTBody
        (some (optComp 'H' oh ++ (optComp 'M' om ++ optComp 'S' os)))
      = some (parsePTBody (optComp 'H' oh ++ (optComp 'M' om ++ optComp 'S' os))) from rfl]
  rw [parsePTBody_mk]

/-- C5: a `PT#H#M#S` duration with any subset of components present makes
`_set_api_data` set the `length` future to
`hours*3600 + minutes*60 + seconds` (missing components count 0);
`PT1H2M10S` gives 3730, `PT5M` gives 300, `PT10S` gives 10; an absent item
(no data returned for the video) yields the absent marker. -/
theorem claim5_duration_parsing :
    (∀ (oh om os : Option Nat) (mv : Nat) (e : EntryState) (it : Item)
       (cd : ContentDetails),
       it.contentDetails = some cd →
       cd.duration = some (mkDurStr oh om os) →
       isSet (getField e FieldName.length) = false →
       getField (setApiData [FieldName.length] (some it) mv e).1 FieldName.length
         = FieldState.setF (some (Value.vnat
             (oh.getD 0 * 3600 + om.getD 0 * 60 + os.getD 0))))
    ∧ parseDuration "PT1H2M10S" = some 3730
    ∧ parseDuration "PT5M" = some 300
    ∧ parseDuration "PT10S" = some 10
    ∧ (∀ (mv : Nat) (e : EntryState),
        isSet (getField e FieldName.length) = false →
        getField (setApiData [FieldName.length] none mv e).1 FieldName.length
          = FieldState.setF none) := by
  refine ⟨?_, by decide, by decide, by decide, ?_⟩
  · intro oh om os mv e it cd hcd hdur hunset
    have hpd := parseDuration_mkDurStr oh om os
    have harith : oh.getD 0 * 3600 + (om.getD 0 * 60 + os.getD 0 * 1)
        = oh.getD 0 * 3600 + om.getD 0 * 60 + os.getD 0 := by ring
    rw [harith] at hpd
    have hfv : fieldValue mv FieldName.length it
        = Except.ok (some (Value.vnat
            (oh.getD 0 * 3600 + om.getD 0 * 60 + os.getD 0))) := by
      simp only [fieldValue, hcd, hdur, hpd]
    have h1 : setApiData1 (some it) mv e FieldName.length
        = (setField e FieldName.length (FieldState.setF (some (Value.vnat
            (oh.getD 0 * 3600 + om.getD 0 * 60 + os.getD 0)))), true) := by
      unfold setApiData1
      cases hg : getField e FieldName.length with
      | setF v => rw [hg] at hunset; simp [isSet] at hunset
      | noFuture => simp only [hfv]
      | unsetF => simp only [hfv]
    simp only [setApiData, h1, if_true]
    exact getField_setField_same e FieldName.length _
  · intro mv e hunset
    exact setApiData_none_absent [FieldName.length] mv e FieldName.length
      (List.mem_singleton.mpr rfl) hunset

/-- Witness for C5 at the concrete duration `PT1H2M10S`. -/
theorem claim5_duration_witness :
    getField (setApiData [FieldName.length]
        (some { id := "a",
                contentDetails :=
                  some { duration := some (mkDurStr (some 1) (some 2) (some 10)) } })
        60 { id := "a", length := FieldState.unsetF }).1 FieldName.length
      = FieldState.setF (some (Value.vnat 3730)) := by
  have h := claim5_duration_parsing.1 (some 1) (some 2) (some 10) 60
      { id := "a", length := FieldState.unsetF }
      { id := "a",
        contentDetails := some { duration := some (mkDurStr (some 1) (some 2) (some 10)) } }
      { duration := some (mkDurStr (some 1) (some 2) (some 10)) } rfl rfl rfl
  simpa using h

/-! ## C3 and C7: the `Playlist.videos` loop -/

theorem videosLoop_step (fetch : String → Nat → Except Unit PageData) (mv fuel : Nat)
    (tok : String) (acc : List String) (hlt : acc.length < mv) :
    videosLoop fetch mv (fuel + 1) (some tok) acc
      = match fetch tok (min (mv - acc.length) 50) with
        | Except.error _ => acc
        | Except.ok data =>
          videosLoop fetch mv fuel
            (match data.nextPageToken with
             | none => none
             | some t => if t = "" then none else some t)
            (acc ++ data.items) := by
  conv_lhs => unfold videosLoop
  rw [if_pos hlt]

theorem videosLoop_stop (fetch : String → Nat → Except Unit PageData) (mv fuel : Nat)
    (tok : String) (acc : List String) (hge : ¬ acc.length < mv) :
    videosLoop fetch mv (fuel + 1) (some tok) acc = acc := by
  unfold videosLoop
  rw [if_neg hge]

/-- The accumulated `all_videos` after the first `i` pages of a paginated
source whose page number `j` has items `(pg j).items`. -/
def pagesAcc (pg : Nat → PageData) (i : Nat) : List String :=
  ((List.range i).map (fun j => (pg j).items)).flatten

theorem pagesAcc_succ (pg : Nat → PageData) (i : Nat) :
    pagesAcc pg (i + 1) = pagesAcc pg i ++ (pg i).items := by
  unfold pagesAcc
  rw [List.range_succ, List.map_append, List.flatten_append]
  simp

/-- Running the loop from page `j` of a source that serves pages
`pg j, pg (j+1), ...` (page `j` reached via token `tok j`) and raises at
page `k` returns everything accumulated from pages `j, ..., k-1`. -/
theorem videosLoop_pages (fetch : String → Nat → Except Unit PageData) (mv : Nat)
    (k : Nat) (tok : Nat → String) (pg : Nat → PageData)
    (hok : ∀ i, i < k → ∀ n, fetch (tok i) n = Except.ok (pg i))
    (hnext : ∀ i, i < k →
      (pg i).nextPageToken = some (tok (i + 1)) ∧ tok (i + 1) ≠ "")
    (herr : ∀ n, fetch (tok k) n = Except.error ())
    (hlen : ∀ i, i ≤ k → (pagesAcc pg i).length < mv) :
    ∀ (d j fuel : Nat), j + d = k → d + 1 ≤ fuel →
      videosLoop fetch mv fuel (some (tok j)) (pagesAcc pg j) = pagesAcc pg k := by
  intro d
  induction d with
  | zero =>
    intro j fuel hj hfuel
    have hjk : j = k := by omega
    subst hjk
    obtain ⟨f, rfl⟩ : ∃ f, fuel = f + 1 := ⟨fuel - 1, by omega⟩
    rw [videosLoop_step fetch mv f (tok j) _ (hlen j le_rfl), herr _]
  | succ d ih =>
    intro j fuel hj hfuel
    have hjk : j < k := by omega
    obtain ⟨hp, hne⟩ := hnext j hjk
    obtain ⟨f, rfl⟩ : ∃ f, fuel = f + 1 := ⟨fuel - 1, by omega⟩
    rw [videosLoop_step fetch mv f (tok j) _ (hlen j (by omega))]
    simp only [hok j hjk, hp]
    rw [if_neg hne, ← pagesAcc_succ]
    exact ih (j + 1) f (by omega) (by omega)

/-- C3: if the paginated `list_playlistitems` call raises on page `k + 1`
after `k ≥ 1` pages succeeded, the bare `except: break` leaves the `while`
loop and `self._videos.set(all_videos)` still runs, with exactly the
concatenation of the items of the `k` fetched pages — a partial, not
absent, result (and in particular the future is not left unset). -/
theorem claim3_partial_pagination
    (fetch : String → Nat → Except Unit PageData) (maxVideos fuel k : Nat)
    (tok : Nat → String) (pg : Nat → PageData)
    (_hk : 1 ≤ k) (htok0 : tok 0 = "")
    (hok : ∀ i, i < k → ∀ n, fetch (tok i) n = Except.ok (pg i))
    (hnext : ∀ i, i < k →
      (pg i).nextPageToken = some (tok (i + 1)) ∧ tok (i + 1) ≠ "")
    (herr : ∀ n, fetch (tok k) n = Except.error ())
    (hlen : ∀ i, i ≤ k → (pagesAcc pg i).length < maxVideos)
    (hfuel : k + 1 ≤ fuel) :
    videosJob fetch maxVideos fuel = pagesAcc pg k := by
  unfold videosJob
  rw [← htok0]
  have h0 : pagesAcc pg 0 = [] := rfl
  rw [← h0]
  exact videosLoop_pages fetch maxVideos k tok pg hok hnext herr hlen k 0 fuel
    (by omega) (by omega)

/-- Witness for C3: a concrete source with two successful pages and an
error on the third; the future resolves to both fetched pages' items. -/
theorem claim3_partial_pagination_witness :
    videosJob
      (fun t _ =>
        if t = "" then Except.ok { nextPageToken := some "p1", items := ["a", "b"] }
        else if t = "p1" then Except.ok { nextPageToken := some "p2", items := ["c"] }
        else Except.error ())
      60 3 = ["a", "b", "c"] := by
  have h := claim3_partial_pagination
    (fun t _ =>
      if t = "" then Except.ok { nextPageToken := some "p1", items := ["a", "b"] }
      else if t = "p1" then Except.ok { nextPageToken := some "p2", items := ["c"] }
      else Except.error ())
    60 3 2
    (fun i => if i = 0 then "" else if i = 1 then "p1" else "p2")
    (fun i =>
      if i = 0 then { nextPageToken := some "p1", items := ["a", "b"] }
      else { nextPageToken := some "p2", items := ["c"] })
    (by decide) rfl
    (by intro i hi n; interval_cases i <;> rfl)
    (by intro i hi; interval_cases i <;> exact ⟨rfl, by decide⟩)
    (fun n => rfl)
    (by intro i hi; interval_cases i <;> decide)
    (by decide)
  exact h.trans (by decide)

theorem videosLoop_length_le (fetch : String → Nat → Except Unit PageData) (mv : Nat) :
    ∀ (fuel : Nat) (page : Option String) (acc : List String),
      (∀ tok n d, fetch tok n = Except.ok d → d.items.length ≤ n) →
      acc.length ≤ mv → (videosLoop fetch mv fuel page acc).length ≤ mv := by
  intro fuel
  induction fuel with
  | zero =>
    intro page acc _ hacc
    simpa [videosLoop] using hacc
  | succ f ih =>
    intro page acc hf hacc
    cases page with
    | none => simpa [videosLoop] using hacc
    | some tok =>
      by_cases hlt : acc.length < mv
      · rw [videosLoop_step fetch mv f tok acc hlt]
        cases hr : fetch tok (min (mv - acc.length) 50) with
        | error u => simpa using hacc
        | ok data =>
          apply ih _ _ hf
          have hd := hf tok _ data hr
          rw [List.length_append]
          omega
      · rw [videosLoop_stop fetch mv f tok acc hlt]
        exact hacc

/-- C7: `video_count` is clamped by `min(itemCount, max_videos)` (85 with
`max_videos = 60` resolves to 60), and — provided each paginated call
returns at most the requested number of items — the list given to the
`videos` (children) future never exceeds `max_videos`. -/
theorem claim7_max_videos_clamp :
    (∀ (n mv : Nat) (e : EntryState) (it : Item) (cd : ContentDetails),
       it.contentDetails = some cd → cd.itemCount = some n →
       isSet (getField e FieldName.video_count) = false →
       getField (setApiData [FieldName.video_count] (some it) mv e).1 FieldName.video_count
         = FieldState.setF (some (Value.vnat (min n mv))) ∧ min n mv ≤ mv)
    ∧ getField (setApiData [FieldName.video_count]
          (some { id := "p", contentDetails := some { itemCount := some 85 } }) 60
          { id := "p", video_count := FieldState.unsetF }).1 FieldName.video_count
        = FieldState.setF (some (Value.vnat 60))
    ∧ (∀ (fetch : String → Nat → Except Unit PageData) (mv fuel : Nat),
        (∀ tok n d, fetch tok n = Except.ok d → d.items.length ≤ n) →
        (videosJob fetch mv fuel).length ≤ mv) := by
  refine ⟨?_, by decide, ?_⟩
  · intro n mv e it cd hcd hcnt hunset
    have hfv : fieldValue mv FieldName.video_count it
        = Except.ok (some (Value.vnat (min n mv))) := by
      simp only [fieldValue, hcd, hcnt]
    have h1 : setApiData1 (some it) mv e FieldName.video_count
        = (setField e FieldName.video_count
            (FieldState.setF (some (Value.vnat (min n mv)))), true) := by
      unfold setApiData1
      cases hg : getField e FieldName.video_count with
      | setF v => rw [hg] at hunset; simp [isSet] at hunset
      | noFuture => simp only [hfv]
      | unsetF => simp only [hfv]
    constructor
    · simp only [setApiData, h1, if_true]
      exact getField_setField_same e FieldName.video_count _
    · exact min_le_right n mv
  · intro fetch mv fuel hf
    exact videosLoop_length_le fetch mv fuel (some "") [] hf (by simp)

/-- Witness for C7 at concrete inputs (a count of 85 clamped by 60, and a
fetch that always errors). -/
theorem claim7_max_videos_witness :
    (getField (setApiData [FieldName.video_count]
          (some { id := "p", contentDetails := some { itemCount := some 85 } }) 60
          { id := "p", video_count := FieldState.unsetF }).1 FieldName.video_count
        = FieldState.setF (some (Value.vnat (min 85 60))) ∧ min 85 60 ≤ 60)
    ∧ (videosJob (fun _ _ => Except.error ()) 60 5).length ≤ 60 :=
  ⟨claim7_max_videos_clamp.1 85 60 { id := "p", video_count := FieldState.unsetF }
      { id := "p", contentDetails := some { itemCount := some 85 } }
      { itemCount := some 85 } rfl rfl rfl,
   claim7_max_videos_clamp.2.2 (fun _ _ => Except.error ()) 60 5
      (fun _ _ _ h => Except.noConfusion h)⟩

/-! ## C6: the 50-element batch split of `load_info` -/

theorem chunksAux_flatten {α : Type} :
    ∀ (fuel : Nat) (l : List α), l.length ≤ fuel → (chunksAux fuel l).flatten = l := by
  intro fuel
  induction fuel with
  | zero =>
    intro l h
    have hl : l = [] := List.length_eq_zero.mp (Nat.le_zero.mp h)
    subst hl
    rfl
  | succ f ih =>
    intro l h
    cases l with
    | nil => rfl
    | cons a l' =>
      show (List.take 50 (a :: l') :: chunksAux f (List.drop 50 (a :: l'))).flatten
          = a :: l'
      rw [List.flatten_cons]
      rw [ih (List.drop 50 (a :: l')) (by simp only [List.length_drop]; simp at h ⊢; omega)]
      exact List.take_append_drop 50 (a :: l')

theorem chunksAux_mem {α : Type} :
    ∀ (fuel : Nat) (l : List α) (b : List α), l.length ≤ fuel →
      b ∈ chunksAux fuel l → b.length ≤ 50 ∧ b ≠ [] := by
  intro fuel
  induction fuel with
  | zero =>
    intro l b h hb
    have hl : l = [] := List.length_eq_zero.mp (Nat.le_zero.mp h)
    subst hl
    cases hb
  | succ f ih =>
    intro l b h hb
    cases l with
    | nil => cases hb
    | cons a l' =>
      rcases List.mem_cons.mp hb with hb1 | hb2
      · subst hb1
        constructor
        · exact List.length_take_le 50 (a :: l')
        · simp
      · exact ih (List.drop 50 (a :: l')) b
          (by simp only [List.length_drop]; simp at h ⊢; omega) hb2

/-- C6: `load_info` filters the list through `_add_futures`, splits the
filtered list into contiguous sublists of at most 50 preserving order (so
their concatenation is the filtered list), and submits exactly one pool
job per sublist; a filtered list of 120 fresh video entities produces
exactly 3 batches of sizes 50, 50 and 20. -/
theorem claim6_batch_split :
    (∀ (fields : List FieldName) (l : List EntryState),
       (loadInfoBatches fields l).flatten = addFutures fields l
       ∧ ∀ b ∈ loadInfoBatches fields l, b.length ≤ 50 ∧ b ≠ [])
    ∧ (loadInfoBatches videoFields
        (List.replicate 120 { id := "v" })).map List.length = [50, 50, 20] := by
  constructor
  · intro fields l
    exact ⟨chunksAux_flatten _ _ le_rfl, fun b hb => chunksAux_mem _ _ b le_rfl hb⟩
  · rfl

/-- Witness for C6 at a concrete one-element list. -/
theorem claim6_batch_split_witness :
    (loadInfoBatches videoFields [{ id := "v" }]).flatten
      = addFutures videoFields [{ id := "v" }]
    ∧ [({ id := "v", title := FieldState.unsetF,
          length := FieldState.unsetF, channel := FieldState.unsetF } : EntryState)].length ≤ 50 :=
  ⟨(claim6_batch_split.1 videoFields [{ id := "v" }]).1,
   ((claim6_batch_split.1 videoFields [{ id := "v" }]).2
      [{ id := "v", title := FieldState.unsetF,
         length := FieldState.unsetF, channel := FieldState.unsetF }]
      (by decide)).1⟩

/-! ## C8: the `lru_cache` of `Entry.get` -/

theorem find?_append_all_fail {α : Type} (p : α → Bool) (xs : List α) (y : α)
    (h : ∀ x ∈ xs, p x = false) :
    List.find? p (xs ++ [y]) = List.find? p [y] := by
  induction xs with
  | nil => rfl
  | cons a l ih =>
    rw [List.cons_append, List.find?_cons, h a (List.mem_cons_self a l)]
    exact ih (fun x hx => h x (List.mem_cons_of_mem a hx))

/-- After `entryGet`, the key is resident and maps to the returned token. -/
theorem cacheLookup_after_entryGet (cls : ClsTag) (id : String) (c : CacheState) :
    cacheLookup (entryGet cls id c).2 (cls, id) = some (entryGet cls id c).1 := by
  unfold entryGet
  cases h : cacheLookup c (cls, id) with
  | some tok => exact h
  | none =>
    have hfail : ∀ p ∈ c.entries, (p.1 == (cls, id)) = false := by
      intro p hp
      have hfind : List.find? (fun q => q.1 == (cls, id)) c.entries = none := by
        unfold cacheLookup at h
        exact Option.map_eq_none'.mp h
      have := List.find?_eq_none.mp hfind p hp
      simpa using this
    simp only
    unfold cacheLookup
    by_cases hcap : cache_max_len ≤ c.entries.length
    · rw [if_pos hcap]
      rw [find?_append_all_fail _ _ _
        (fun x hx => hfail x (List.drop_subset 1 c.entries hx))]
      simp
    · rw [if_neg hcap]
      rw [find?_append_all_fail _ _ _ hfail]
      simp

/-- A cache hit returns the resident instance and leaves the cache as is. -/
theorem entryGet_hit (cls : ClsTag) (id : String) (c : CacheState) (tok : Nat)
    (h : cacheLookup c (cls, id) = some tok) : entryGet cls id c = (tok, c) := by
  unfold entryGet
  rw [h]

/-- C8: two `Video.get(id)`/`Playlist.get(id)` calls with the second made
while the first result is resident return the identical instance (and the
second call does not change the cache), and the cache never grows past
`cache_max_len = 400` entries. -/
theorem claim8_cache_identity :
    (∀ (cls : ClsTag) (id : String) (c : CacheState),
       (entryGet cls id (entryGet cls id c).2).1 = (entryGet cls id c).1
       ∧ (entryGet cls id (entryGet cls id c).2).2 = (entryGet cls id c).2)
    ∧ (∀ (cls : ClsTag) (id : String) (c : CacheState),
        c.entries.length ≤ cache_max_len →
        ((entryGet cls id c).2).entries.length ≤ cache_max_len) := by
  constructor
  · intro cls id c
    have h := cacheLookup_after_entryGet cls id c
    have h2 := entryGet_hit cls id (entryGet cls id c).2 (entryGet cls id c).1 h
    rw [h2]
    exact ⟨rfl, rfl⟩
  · intro cls id c hlen
    unfold entryGet
    cases h : cacheLookup c (cls, id) with
    | some tok => exact hlen
    | none =>
      simp only
      by_cases hcap : cache_max_len ≤ c.entries.length
      · rw [if_pos hcap]
        simp only [List.length_append, List.length_drop, List.length_cons,
          List.length_nil, cache_max_len] at hlen hcap ⊢
        omega
      · rw [if_neg hcap]
        simp only [List.length_append, List.length_cons, List.length_nil,
          cache_max_len] at hlen hcap ⊢
        omega

/-- Witness for C8 starting from the empty cache. -/
theorem claim8_cache_identity_witness :
    ((entryGet ClsTag.video "x"
        (entryGet ClsTag.video "x" { entries := [], nextTok := 0 }).2).1
      = (entryGet ClsTag.video "x" { entries := [], nextTok := 0 }).1)
    ∧ ((entryGet ClsTag.video "x" { entries := [], nextTok := 0 }).2).entries.length
        ≤ cache_max_len :=
  ⟨(claim8_cache_identity.1 ClsTag.video "x" { entries := [], nextTok := 0 }).1,
   claim8_cache_identity.2 ClsTag.video "x" { entries := [], nextTok := 0 } (by decide)⟩

/-! ## C9: the `ThreadPool` -/

theorem workerStep_poolStep {s s' : PoolState} (h : WorkerStep s s') : PoolStep s s' := by
  cases h with
  | workerPop hw hne => exact PoolStep.workerPop _ hw hne
  | workerExit hw he => exact PoolStep.workerExit _ hw he

theorem poolInv_init : PoolInv initPool := by
  refine ⟨rfl, by decide, ?_⟩
  intro h
  exact absurd rfl h

theorem poolInv_step (s s' : PoolState) (hinv : PoolInv s) (hstep : PoolStep s s') :
    PoolInv s' := by
  obtain ⟨h1, h2, h3⟩ := hinv
  simp only [threads_max] at h2
  cases hstep with
  | submit j =>
    unfold poolRun
    dsimp only
    split_ifs with hlt
    · have hlt2 : s.threads_active < 2 := by
        simpa [threads_max] using hlt
      refine ⟨?_, ?_, fun _ => ?_⟩
      · show s.threads_active + 1 = ((s.liveWorkers + 1 : Nat) : Int)
        omega
      · show s.threads_active + 1 ≤ threads_max
        simp only [threads_max]
        omega
      · show 1 ≤ s.liveWorkers + 1
        omega
    · have hge : ¬ s.threads_active < 2 := by simpa [threads_max] using hlt
      refine ⟨h1, ?_, fun _ => ?_⟩
      · show s.threads_active ≤ threads_max
        simp only [threads_max]
        omega
      · show 1 ≤ s.liveWorkers
        omega
  | workerPop s0 hw hne => exact ⟨h1, by simpa [threads_max] using h2, fun _ => hw⟩
  | workerExit s0 hw he =>
    refine ⟨?_, ?_, fun hne => absurd he hne⟩
    · show s.threads_active - 1 = ((s.liveWorkers - 1 : Nat) : Int)
      omega
    · show s.threads_active - 1 ≤ threads_max
      simp only [threads_max]
      omega

theorem poolReachable_inv (s : PoolState) (h : PoolReachable s) : PoolInv s := by
  induction h with
  | refl => exact poolInv_init
  | tail hab hbc ih => exact poolInv_step _ _ ih hbc

theorem pool_drain :
    ∀ (m : Nat) (s : PoolState), 2 * s.jobs.length + s.liveWorkers ≤ m → PoolInv s →
      ∃ s', Relation.ReflTransGen WorkerStep s s' ∧ s'.jobs = [] ∧ s'.threads_active = 0 := by
  intro m
  induction m with
  | zero =>
    intro s hm hinv
    have hw : s.liveWorkers = 0 := by omega
    have hj : s.jobs = [] := List.length_eq_zero.mp (by omega)
    refine ⟨s, Relation.ReflTransGen.refl, hj, ?_⟩
    rw [hinv.1, hw]
    rfl
  | succ m ih =>
    intro s hm hinv
    cases hw : s.liveWorkers with
    | zero =>
      have hj : s.jobs = [] := by
        by_contra hne
        have := hinv.2.2 hne
        omega
      refine ⟨s, Relation.ReflTransGen.refl, hj, ?_⟩
      rw [hinv.1, hw]
      rfl
    | succ w =>
      cases hj : s.jobs with
      | nil =>
        have hstep : WorkerStep s
            { s with threads_active := s.threads_active - 1,
                     liveWorkers := s.liveWorkers - 1 } :=
          WorkerStep.workerExit s (by omega) hj
        have hinv2 := poolInv_step _ _ hinv (workerStep_poolStep hstep)
        obtain ⟨s', hrt, hj', ha'⟩ := ih _ (by simp [hj]; omega) hinv2
        exact ⟨s', Relation.ReflTransGen.head hstep hrt, hj', ha'⟩
      | cons a l =>
        have hne : s.jobs ≠ [] := by rw [hj]; simp
        have hstep : WorkerStep s { s with jobs := s.jobs.dropLast } :=
          WorkerStep.workerPop s (by omega) hne
        have hinv2 := poolInv_step _ _ hinv (workerStep_poolStep hstep)
        obtain ⟨s', hrt, hj', ha'⟩ := ih { s with jobs := s.jobs.dropLast }
          (by simp only [List.length_dropLast, hj]; simp [hj] at hm ⊢; omega) hinv2
        exact ⟨s', Relation.ReflTransGen.head hstep hrt, hj', ha'⟩

/-- C9: in every reachable pool state the active-worker counter stays
between 0 and `threads_max = 2` (`run` starts a worker only below the
cap, a worker decrements exactly once when it finds the queue empty), and
from any reachable state the workers alone can drain the queue and bring
the counter back to 0. -/
theorem claim9_pool_bounds (s : PoolState) (hreach : PoolReachable s) :
    (0 ≤ s.threads_active ∧ s.threads_active ≤ threads_max)
    ∧ ∃ s', Relation.ReflTransGen WorkerStep s s'
        ∧ s'.jobs = [] ∧ s'.threads_active = 0 := by
  have hinv := poolReachable_inv s hreach
  refine ⟨⟨?_, hinv.2.1⟩, ?_⟩
  · rw [hinv.1]
    exact Int.natCast_nonneg _
  · exact pool_drain (2 * s.jobs.length + s.liveWorkers) s le_rfl hinv

/-- Witness for C9 at the initial pool state. -/
theorem claim9_pool_bounds_witness :
    (0 ≤ initPool.threads_active ∧ initPool.threads_active ≤ threads_max)
    ∧ ∃ s', Relation.ReflTransGen WorkerStep initPool s'
        ∧ s'.jobs = [] ∧ s'.threads_active = 0 :=
  claim9_pool_bounds initPool Relation.ReflTransGen.refl

/-! ## C10: `Video.thumbnails` -/

theorem string_append_assoc (a b c : String) : a ++ b ++ c = a ++ (b ++ c) := by
  cases a with
  | mk da =>
    cases b with
    | mk db =>
      cases c with
      | mk dc =>
        show String.append (String.append ⟨da⟩ ⟨db⟩) ⟨dc⟩
          = String.append ⟨da⟩ (String.append ⟨db⟩ ⟨dc⟩)
        simp only [String.append]
        rw [List.append_assoc]

/-- C10: the `thumbnails` property of a video computes both URLs locally
from the id, returns an already-set future holding exactly the two URLs
`.../mqdefault.jpg` then `.../hqdefault.jpg` in that order, and submits no
pool job (hence contacts no remote data source). -/
theorem claim10_thumbnails_local (id : String) :
    videoThumbnails id
      = (FieldState.setF (some (Value.vurls
          ["https://i.ytimg.com/vi/" ++ id ++ "/mqdefault.jpg",
           "https://i.ytimg.com/vi/" ++ id ++ "/hqdefault.jpg"])), ([] : List Nat)) := by
  unfold videoThumbnails
  simp only [List.map_cons, List.map_nil, string_append_assoc]
  rfl
